import Mathlib

/-!
Verification development for the real-time speech turn-taking pipeline of the
Ozon-Bank-Manager-Trainer repository.  Text is modelled as `List Char`;
audio samples as `List Int`; the external ML models (voice-activity
classifier, recognizer, generator, synthesizer) are modelled as abstract
function parameters, exactly as the source consumes them.

Sources embedded here:
 - backend/components/utils.py           (split_into_sentences, extract_complete_sentences)
 - backend/components/orchestrator.py    (Orchestrator.process_streaming, sentence loop)
 - backend/components/llm.py             (LLM.generate_response_stream error path)
 - backend/components/vad_detector.py    (VADDetector)
 - stt_service/components/stt.py         (STT streaming sessions)
-/

/-! ## Basic text helpers (Python `str.strip`, whitespace, punctuation) -/

/-- Python whitespace class (`\s` for ASCII; the common whitespace characters). -/
def pyIsSpace (c : Char) : Bool :=
  c == ' ' || c == '\t' || c == '\n' || c == '\r' || c == '\x0b' || c == '\x0c'

/-- Negation of `pyIsSpace`, used to state whitespace-insensitive equalities. -/
def nonspace (c : Char) : Bool := ! pyIsSpace c

/-- Remove leading whitespace (left part of Python `str.strip`). -/
def stripLeft (l : List Char) : List Char := l.dropWhile pyIsSpace

/-- Remove trailing whitespace (right part of Python `str.strip`). -/
def stripRight (l : List Char) : List Char := (l.reverse.dropWhile pyIsSpace).reverse

/-- Python `str.strip()`. -/
def pyStrip (l : List Char) : List Char := stripRight (stripLeft l)

/-- Sentence-terminal punctuation `[.!?]` from `utils.py`. -/
def isPunctChar (c : Char) : Bool := c == '.' || c == '!' || c == '?'

/-- Concatenation of a list of lists (no separator) — used both for the
orchestrator's `raw_response += text_chunk` accumulation over text and
for reassembling audio sample streams from frames. -/
def joinAll {α : Type} : List (List α) → List α
  | [] => []
  | x :: xs => x ++ joinAll xs

/-- Python `" ".join(parts)` on character lists. -/
def joinSpace : List (List Char) → List Char
  | [] => []
  | [x] => x
  | x :: y :: rest => x ++ ' ' :: joinSpace (y :: rest)

/-! ## utils.py : split_into_sentences / extract_complete_sentences

`re.split(r'([.!?]+)\s*', text)` splits at each maximal punctuation run,
keeps the captured punctuation as a separate part, and silently consumes
the whitespace matched by `\s*`.  `findPunctSplit` locates the first match
and returns (text before, punctuation run, rest after the consumed
whitespace); `reSplitSent` iterates it.  -/

def findPunctSplit : List Char → Option (List Char × List Char × List Char)
  | [] => none
  | c :: cs =>
    if isPunctChar c then
      some ([], (c :: cs).takeWhile isPunctChar,
            ((c :: cs).dropWhile isPunctChar).dropWhile pyIsSpace)
    else
      match findPunctSplit cs with
      | none => none
      | some (pre, punct, rest) => some (c :: pre, punct, rest)

/-- `re.split(r'([.!?]+)\s*', s)` (fuel-bounded; `fuel ≥ s.length` always
suffices because each step consumes at least the punctuation run). -/
def reSplitSent : Nat → List Char → List (List Char)
  | 0, s => [s]
  | fuel + 1, s =>
    match findPunctSplit s with
    | none => [s]
    | some (pre, punct, rest) => pre :: punct :: reSplitSent fuel rest

/-- The recombination loop of `split_into_sentences`: pair each text part
with the following punctuation part (when present and non-blank after
strip), stripping each resulting sentence and dropping blank ones. -/
def recombine : List (List Char) → List (List Char)
  | [] => []
  | [t] => if (pyStrip t).isEmpty then [] else [pyStrip t]
  | t :: p :: rest =>
    if (pyStrip p).isEmpty then
      (if (pyStrip t).isEmpty then [] else [pyStrip t]) ++ recombine (p :: rest)
    else
      (if (pyStrip (t ++ p)).isEmpty then [] else [pyStrip (t ++ p)]) ++ recombine rest

/-- `utils.split_into_sentences`. -/
def split_into_sentences (s : List Char) : List (List Char) :=
  (recombine (reSplitSent s.length s)).filter (fun x => ! x.isEmpty)

/-- `re.search(r'[.!?]+$', s)` on an already-stripped sentence: the last
character is sentence-terminal punctuation. -/
def endsWithPunct (s : List Char) : Bool :=
  match s.getLast? with
  | some c => isPunctChar c
  | none => false

/-- `utils.extract_complete_sentences`. -/
def extract_complete_sentences (s : List Char) : List (List Char) × List Char :=
  let sentences := split_into_sentences s
  match sentences.getLast? with
  | some last => if ! endsWithPunct last then (sentences.dropLast, last) else (sentences, [])
  | none => (sentences, [])

/-! ## orchestrator.py : the TextDelta → SentenceUnit streaming loop

`process_streaming` keeps a `sentence_buffer`, appends each streamed text
chunk, extracts complete sentences, and keeps the remainder buffered. -/

/-- One iteration of the `async for text_chunk in ...` loop: append the
delta, extract, accumulate the extracted sentence units. -/
def pipelineStep (acc : List (List Char) × List Char) (delta : List Char) :
    List (List Char) × List Char :=
  let r := extract_complete_sentences (acc.2 ++ delta)
  (acc.1 ++ r.1, r.2)

/-- Feed a whole sequence of TextDeltas through the sentence-extraction
loop, returning (all emitted SentenceUnits in order, final residual buffer). -/
def runPipeline (deltas : List (List Char)) : List (List Char) × List Char :=
  deltas.foldl pipelineStep ([], [])

/-! ## llm.py : generate_response_stream (error path)

The generator yields each non-empty streamed chunk (`if chunk.content:`);
if the underlying streaming call raises at any point, the exception is
caught, logged, and a single fixed apologetic sentence is yielded before
the generator ends normally.  We model the underlying model stream as the
list of content chunks delivered before the stream ends, plus how it ends
(normal completion or an exception). -/

inductive GenEnd where
  | success : GenEnd
  | failure : GenEnd
deriving DecidableEq

/-- The apologetic fallback yielded by the `except` branch of
`LLM.generate_response_stream`. -/
def llmFallbackError : List Char :=
  String.toList "Извините, произошла ошибка при генерации ответа."

/-- `LLM.generate_response_stream`: the sequence of text chunks the
orchestrator's `async for` loop receives. -/
def generate_response_stream (chunks : List (List Char)) (ending : GenEnd) :
    List (List Char) :=
  (chunks.filter (fun c => ! c.isEmpty)) ++
    (match ending with
     | .success => []
     | .failure => [llmFallbackError])

/-- The orchestrator's `raw_response` accumulation over the received
chunks (`raw_response += text_chunk`). -/
def turnRawResponse (deltas : List (List Char)) : List Char := joinAll deltas

/-! ## stt_service/components/stt.py : streaming transcription sessions

The T-one recognition model is consumed through `forward(chunk, state)`
and `finalize(state)` with a fixed `CHUNK_SIZE`; we model it as an
abstract structure.  A phrase is represented by its text (the only field
the component reads).  `RecCall` records each recognizer invocation so
that theorems can speak about which calls are made and with what frame
sizes. -/

structure TonePipe (σ : Type) where
  CHUNK_SIZE : Nat
  forward : List Int → Option σ → List (List Char) × σ
  finalize : σ → List (List Char) × σ

/-- One recognizer invocation made by the STT component. -/
inductive RecCall where
  | fwd (chunk : List Int) : RecCall
  | fin : RecCall
deriving DecidableEq

/-- `StreamingState` from stt.py.  `cached_text` is the source's
`partial_text` field (the last partial transcription string returned). -/
structure SttState (σ : Type) where
  pipeline_state : Option σ
  all_phrases : List (List Char)
  audio_buffer : List Int
  cached_text : List Char
  finalized : Bool
deriving DecidableEq

/-- The state `start_stream` installs: `StreamingState(pipeline_state=None)`. -/
def sttInitial {σ : Type} : SttState σ :=
  { pipeline_state := none, all_phrases := [], audio_buffer := [],
    cached_text := [], finalized := false }

/-- The `while len(audio_buffer) >= required_chunk_size` loop of
`process_chunk`: slice exact-size chunks, call `forward`, thread the
continuation state, accumulate phrases.  Fuel-bounded; fuel
`audio_buffer.length` always suffices. -/
def sttDrain {σ : Type} (p : TonePipe σ) : Nat → SttState σ → SttState σ × List RecCall
  | 0, st => (st, [])
  | fuel + 1, st =>
    if p.CHUNK_SIZE ≤ st.audio_buffer.length then
      let chunk := st.audio_buffer.take p.CHUNK_SIZE
      let r := p.forward chunk st.pipeline_state
      let st' : SttState σ :=
        { st with audio_buffer := st.audio_buffer.drop p.CHUNK_SIZE,
                  pipeline_state := some r.2,
                  all_phrases := st.all_phrases ++ r.1 }
      let rec' := sttDrain p fuel st'
      (rec'.1, .fwd chunk :: rec'.2)
    else (st, [])

/-- `STT.process_chunk` for one session: a finalized session is reset and
restarted; the decoded samples are appended to the session buffer; full
chunks are drained through `forward`; the partial transcription is
`" ".join(phrase texts).strip()`. Returns (partial text, new state,
recognizer calls made). -/
def STT_process_chunk {σ : Type} (p : TonePipe σ) (st : SttState σ)
    (samples : List Int) : List Char × SttState σ × List RecCall :=
  let st0 : SttState σ := if st.finalized then sttInitial else st
  let st1 : SttState σ := { st0 with audio_buffer := st0.audio_buffer ++ samples }
  let d := sttDrain p st1.audio_buffer.length st1
  let t := pyStrip (joinSpace d.1.all_phrases)
  (t, { d.1 with cached_text := t }, d.2)

/-- The "process any remaining buffered audio" prelude of
`finalize_stream` (stt.py lines 297-328): zero-pad a non-empty residual
to `CHUNK_SIZE` and push it through one `forward` call. -/
def sttFinalizePad {σ : Type} (p : TonePipe σ) (st : SttState σ) :
    SttState σ × List RecCall :=
  if 0 < st.audio_buffer.length then
    let stP : SttState σ :=
      if st.audio_buffer.length < p.CHUNK_SIZE then
        { st with audio_buffer :=
            st.audio_buffer ++ List.replicate (p.CHUNK_SIZE - st.audio_buffer.length) 0 }
      else st
    if p.CHUNK_SIZE ≤ stP.audio_buffer.length then
      let chunk := stP.audio_buffer.take p.CHUNK_SIZE
      let r := p.forward chunk stP.pipeline_state
      (({ stP with pipeline_state := some r.2,
                   all_phrases := stP.all_phrases ++ r.1 } : SttState σ),
       [RecCall.fwd chunk])
    else (stP, ([] : List RecCall))
  else (st, ([] : List RecCall))

/-- `STT.finalize_stream` for one session: an already-finalized session
returns its cached partial text and makes no recognizer calls; otherwise
any non-empty residual is zero-padded to `CHUNK_SIZE` and pushed through
one `forward` call, then `finalize(state)` flushes the recognizer
(skipped entirely when the continuation state is still `None`). -/
def STT_finalize_stream {σ : Type} (p : TonePipe σ) (st : SttState σ) :
    List Char × SttState σ × List RecCall :=
  if st.finalized then (st.cached_text, st, [])
  else
    let step := sttFinalizePad p st
    match step.1.pipeline_state with
    | some s =>
      let r := p.finalize s
      let phrases := step.1.all_phrases ++ r.1
      let t := pyStrip (joinSpace phrases)
      (t, { step.1 with all_phrases := phrases, cached_text := t, finalized := true },
       step.2 ++ [RecCall.fin])
    | none =>
      (if step.1.cached_text.isEmpty then [] else step.1.cached_text,
       { step.1 with finalized := true }, step.2)

/-! ## backend/components/vad_detector.py : end-of-speech detector

The Silero model call `self.model(tensor, sr).item() >= threshold` inside
`try/except` is abstracted by a per-frame classification returning
speech / non-speech / error (exception caught by the `except` branch).
Audio is modelled at the sample level (`len(chunk_bytes)//2` sample
counts become list lengths). -/

inductive FrameClass where
  | speech : FrameClass
  | nonspeech : FrameClass
  | err : FrameClass
deriving DecidableEq

structure VADConfig where
  frame_size_samples : Nat
  silence_threshold_samples : Nat
  min_speech_samples : Nat
  classify : List Int → FrameClass

/-- Detector state (`VADDetector` instance fields). -/
structure VADState where
  speech_buffer : List (List Int)
  silence_samples : Nat
  speech_started : Bool
  speech_samples : Nat
  audio_buffer : List Int
deriving DecidableEq

/-- The state `VADDetector._reset` installs (also the construction-time
state): empty buffers, zero counters, speech not started. -/
def vadInitial : VADState :=
  { speech_buffer := [], silence_samples := 0, speech_started := false,
    speech_samples := 0, audio_buffer := [] }

/-- Outcome of one iteration of the `while` loop body in
`_process_audio_buffer`: emit a completed segment (early `return`),
discard a too-short segment (early `return None`), or continue looping. -/
inductive StepOutcome where
  | emitSeg (seg : List (List Int)) : StepOutcome
  | discard : StepOutcome
  | next : StepOutcome
deriving DecidableEq

/-- One iteration body of `_process_audio_buffer` applied to a sliced
frame (the frame has already been removed from `audio_buffer` in `st`). -/
def processFrame (cfg : VADConfig) (st : VADState) (chunk : List Int) :
    StepOutcome × VADState :=
  match cfg.classify chunk with
  | .err => (.next, st)
  | .speech =>
    (.next, { st with speech_buffer := st.speech_buffer ++ [chunk],
                      silence_samples := 0,
                      speech_started := true,
                      speech_samples := st.speech_samples + cfg.frame_size_samples })
  | .nonspeech =>
    if st.speech_started then
      let st' : VADState := { st with silence_samples := st.silence_samples + cfg.frame_size_samples }
      if cfg.silence_threshold_samples ≤ st'.silence_samples then
        if cfg.min_speech_samples ≤ (st'.speech_buffer.map List.length).sum then
          (.emitSeg st'.speech_buffer, vadInitial)
        else (.discard, vadInitial)
      else (.next, st')
    else (.next, st)

/-- `VADDetector._process_audio_buffer`: slice `frame_size_samples`-sized
frames off `audio_buffer` and run the body; an emitted or discarded
segment returns immediately (after `_reset`, which also clears
`audio_buffer`).  Returns (emitted segment?, state, frames handed to the
classifier, whether `_reset` ran).  Fuel-bounded; fuel
`audio_buffer.length` always suffices. -/
def vadProcessBuffer (cfg : VADConfig) :
    Nat → VADState → Option (List (List Int)) × VADState × List (List Int) × Bool
  | 0, st => (none, st, [], false)
  | fuel + 1, st =>
    if cfg.frame_size_samples ≤ st.audio_buffer.length then
      let chunk := st.audio_buffer.take cfg.frame_size_samples
      let st1 : VADState := { st with audio_buffer := st.audio_buffer.drop cfg.frame_size_samples }
      let r := processFrame cfg st1 chunk
      match r.1 with
      | .emitSeg seg => (some seg, r.2, [chunk], true)
      | .discard => (none, r.2, [chunk], true)
      | .next =>
        let rec' := vadProcessBuffer cfg fuel r.2
        (rec'.1, rec'.2.1, chunk :: rec'.2.2.1, rec'.2.2.2)
    else (none, st, [], false)

/-- `VADDetector.process_chunk`: append the decoded samples, return early
while less than one frame is buffered, otherwise run the buffer loop. -/
def VAD_process_chunk (cfg : VADConfig) (st : VADState) (samples : List Int) :
    Option (List (List Int)) × VADState × List (List Int) × Bool :=
  let st1 : VADState := { st with audio_buffer := st.audio_buffer ++ samples }
  if st1.audio_buffer.length < cfg.frame_size_samples then (none, st1, [], false)
  else vadProcessBuffer cfg st1.audio_buffer.length st1

/-- `VADDetector.flush`: zero-pad any residual audio to one frame and run
the buffer loop; if no segment was emitted there, emit the buffered
speech if it started and meets `min_speech_samples`, else keep state. -/
def VAD_flush (cfg : VADConfig) (st : VADState) :
    Option (List (List Int)) × VADState × List (List Int) × Bool :=
  let run :=
    if 0 < st.audio_buffer.length then
      let stP : VADState :=
        if st.audio_buffer.length < cfg.frame_size_samples then
          { st with audio_buffer :=
              st.audio_buffer ++ List.replicate (cfg.frame_size_samples - st.audio_buffer.length) 0 }
        else st
      vadProcessBuffer cfg stP.audio_buffer.length stP
    else (none, st, [], false)
  match run.1 with
  | some seg => (some seg, run.2.1, run.2.2.1, run.2.2.2)
  | none =>
    let st2 := run.2.1
    if st2.speech_started ∧ cfg.min_speech_samples ≤ (st2.speech_buffer.map List.length).sum then
      (some st2.speech_buffer, vadInitial, run.2.2.1, true)
    else (none, st2, run.2.2.1, run.2.2.2)

/-- Feed a sequence of audio chunks through `process_chunk` in order,
collecting all frames handed downstream and whether any reset occurred. -/
def VAD_feed (cfg : VADConfig) : VADState → List (List Int) → VADState × List (List Int) × Bool
  | st, [] => (st, [], false)
  | st, c :: cs =>
    let r := VAD_process_chunk cfg st c
    let rest := VAD_feed cfg r.2.1 cs
    (rest.1, r.2.2.1 ++ rest.2.1, r.2.2.2 || rest.2.2)



/-! ## Concrete configurations and states used by witness theorems -/

/-- A concrete recognition pipeline used to witness the session theorems
on executable inputs. -/
def pipeDemo : TonePipe Nat :=
  { CHUNK_SIZE := 2, forward := fun _ _ => ([['a']], 0),
    finalize := fun s => ([['b']], s) }

/-- Detector configuration used in counterexamples: one-sample frames,
end-of-speech after one silent frame, classifying `[1]` as speech and
everything else as non-speech. -/
def vadCexConfig : VADConfig :=
  { frame_size_samples := 1, silence_threshold_samples := 1, min_speech_samples := 1,
    classify := fun c => if c = [1] then .speech else .nonspeech }

/-- Detector configuration that classifies every frame as non-speech
(no utterance ever starts, so the detector never resets). -/
def vadQuietConfig : VADConfig :=
  { frame_size_samples := 2, silence_threshold_samples := 4, min_speech_samples := 2,
    classify := fun _ => .nonspeech }

/-- Detector configuration classifying every frame as non-speech, with
two-sample frames and thresholds met after one silent frame. -/
def vadEmitConfig : VADConfig :=
  { frame_size_samples := 2, silence_threshold_samples := 2, min_speech_samples := 2,
    classify := fun _ => .nonspeech }

/-- Detector configuration with one-sample frames, an all-non-speech
classifier, and a silence threshold far away (ten samples). -/
def vadSilentConfig : VADConfig :=
  { frame_size_samples := 1, silence_threshold_samples := 10, min_speech_samples := 1,
    classify := fun _ => .nonspeech }

/-- Detector configuration whose classifier raises on every frame. -/
def vadErrConfig : VADConfig :=
  { frame_size_samples := 1, silence_threshold_samples := 10, min_speech_samples := 1,
    classify := fun _ => .err }

/-- A mid-utterance detector state: speech started, one buffered
two-sample speech frame, no trailing silence yet. -/
def vadMidState : VADState :=
  { speech_buffer := [[5, 5]], silence_samples := 0, speech_started := true,
    speech_samples := 2, audio_buffer := [] }

/-- A mid-utterance detector state with one buffered one-sample frame. -/
def vadStartedState : VADState :=
  { speech_buffer := [[1]], silence_samples := 0, speech_started := true,
    speech_samples := 1, audio_buffer := [] }


/-! ## Lemmas: whitespace-insensitive character preservation (C1) -/

theorem joinAll_append {α : Type} (a b : List (List α)) :
    joinAll (a ++ b) = joinAll a ++ joinAll b := by
  induction a with
  | nil => rfl
  | cons x xs ih => simp [joinAll, ih]

theorem joinAll_filter_nonempty (a : List (List Char)) :
    joinAll (a.filter (fun x => ! x.isEmpty)) = joinAll a := by
  induction a with
  | nil => rfl
  | cons x xs ih =>
    by_cases h : x.isEmpty
    · have hx : x = [] := by simpa [List.isEmpty_iff] using h
      simp [List.filter_cons, h, joinAll, ih, hx]
    · simp [List.filter_cons, h, joinAll, ih]

theorem filter_nonspace_dropWhile (l : List Char) :
    (l.dropWhile pyIsSpace).filter nonspace = l.filter nonspace := by
  induction l with
  | nil => rfl
  | cons c l ih =>
    by_cases h : pyIsSpace c
    · simp [List.dropWhile_cons, h, List.filter_cons, nonspace, ih]
    · simp [List.dropWhile_cons, h, List.filter_cons, nonspace]

theorem filter_nonspace_reverse (l : List Char) :
    l.reverse.filter nonspace = (l.filter nonspace).reverse := by
  induction l with
  | nil => rfl
  | cons c l ih =>
    by_cases h : nonspace c <;>
      simp [List.filter_cons, List.filter_append, h, ih]

theorem filter_nonspace_pyStrip (l : List Char) :
    (pyStrip l).filter nonspace = l.filter nonspace := by
  unfold pyStrip stripRight stripLeft
  rw [filter_nonspace_reverse, filter_nonspace_dropWhile, filter_nonspace_reverse,
    List.reverse_reverse, filter_nonspace_dropWhile]

theorem filter_nonspace_of_pyStrip_nil {l : List Char} (h : pyStrip l = []) :
    l.filter nonspace = [] := by
  rw [← filter_nonspace_pyStrip, h]
  rfl

theorem findPunctSplit_eq (s pre punct rest : List Char)
    (h : findPunctSplit s = some (pre, punct, rest)) :
    ∃ ws, s = pre ++ punct ++ ws ++ rest ∧ (∀ c ∈ ws, pyIsSpace c = true) ∧ punct ≠ [] := by
  induction s generalizing pre with
  | nil => simp [findPunctSplit] at h
  | cons c cs ih =>
    unfold findPunctSplit at h
    by_cases hc : isPunctChar c
    · simp only [hc, if_true, Option.some.injEq, Prod.mk.injEq] at h
      obtain ⟨h1, h2, h3⟩ := h
      refine ⟨((c :: cs).dropWhile isPunctChar).takeWhile pyIsSpace, ?_, ?_, ?_⟩
      · rw [← h1, ← h2, ← h3]
        simp only [List.nil_append]
        rw [List.append_assoc, List.takeWhile_append_dropWhile,
          List.takeWhile_append_dropWhile]
      · intro a ha
        exact List.mem_takeWhile_imp ha
      · rw [← h2]
        simp [List.takeWhile_cons, hc]
    · rw [if_neg hc] at h
      cases hfp : findPunctSplit cs with
      | none => rw [hfp] at h; simp at h
      | some r =>
        obtain ⟨pre', punct', rest'⟩ := r
        rw [hfp] at h
        simp only [Option.some.injEq, Prod.mk.injEq] at h
        obtain ⟨h1, h2, h3⟩ := h
        subst h2 h3
        obtain ⟨ws, hcs, hws, hp⟩ := ih pre' hfp
        refine ⟨ws, ?_, hws, hp⟩
        rw [← h1, hcs]
        simp

theorem findPunctSplit_rest_lt (s pre punct rest : List Char)
    (h : findPunctSplit s = some (pre, punct, rest)) : rest.length < s.length := by
  obtain ⟨ws, hs, _, hp⟩ := findPunctSplit_eq s pre punct rest h
  have : 0 < punct.length := List.length_pos.mpr hp
  rw [hs]
  simp only [List.length_append]
  omega

theorem filter_nonspace_reSplitSent (fuel : Nat) (s : List Char) (h : s.length ≤ fuel) :
    (joinAll (reSplitSent fuel s)).filter nonspace = s.filter nonspace := by
  induction fuel generalizing s with
  | zero =>
    have hs : s = [] := List.length_eq_zero.mp (Nat.le_zero.mp h)
    subst hs
    rfl
  | succ fuel ih =>
    unfold reSplitSent
    cases hfp : findPunctSplit s with
    | none => simp [joinAll]
    | some r =>
      obtain ⟨pre, punct, rest⟩ := r
      obtain ⟨ws, hs, hws, _⟩ := findPunctSplit_eq s pre punct rest hfp
      have hlt : rest.length < s.length := findPunctSplit_rest_lt s pre punct rest hfp
      have hle : rest.length ≤ fuel := by omega
      have hws0 : ws.filter nonspace = [] := by
        apply List.filter_eq_nil_iff.mpr
        intro a ha
        simp [nonspace, hws a ha]
      simp [joinAll, List.filter_append, ih rest hle, hs, hws0]

theorem filter_nonspace_recombine (parts : List (List Char)) :
    (joinAll (recombine parts)).filter nonspace = (joinAll parts).filter nonspace := by
  induction parts using recombine.induct with
  | case1 => rfl
  | case2 t ht =>
    have ht' : pyStrip t = [] := by simpa [List.isEmpty_iff] using ht
    simp [recombine, ht, joinAll, filter_nonspace_of_pyStrip_nil ht']
  | case3 t ht =>
    simp [recombine, ht, joinAll, filter_nonspace_pyStrip]
  | case4 t p rest hp ih =>
    unfold recombine
    rw [if_pos hp, joinAll_append]
    by_cases h : (pyStrip t).isEmpty
    · have ht : pyStrip t = [] := by simpa [List.isEmpty_iff] using h
      simp [h, joinAll, List.filter_append, ih, filter_nonspace_of_pyStrip_nil ht]
    · simp [h, joinAll, List.filter_append, ih, filter_nonspace_pyStrip]
  | case5 t p rest hp ih =>
    unfold recombine
    rw [if_neg hp]
    by_cases h : (pyStrip (t ++ p)).isEmpty
    · rw [if_pos h]
      simp only [List.nil_append]
      have ht : pyStrip (t ++ p) = [] := by simpa [List.isEmpty_iff] using h
      have h2 := filter_nonspace_of_pyStrip_nil ht
      rw [ih]
      have hj : joinAll (t :: p :: rest) = (t ++ p) ++ joinAll rest := by
        simp [joinAll, List.append_assoc]
      rw [hj, List.filter_append, h2, List.nil_append]
    · rw [if_neg h, joinAll_append]
      have h2 := filter_nonspace_pyStrip (t ++ p)
      have hj : joinAll (t :: p :: rest) = (t ++ p) ++ joinAll rest := by
        simp [joinAll, List.append_assoc]
      have hs : joinAll [pyStrip (t ++ p)] = pyStrip (t ++ p) := by simp [joinAll]
      rw [hj, hs, List.filter_append, List.filter_append, ih, h2]

theorem filter_nonspace_split_into_sentences (s : List Char) :
    (joinAll (split_into_sentences s)).filter nonspace = s.filter nonspace := by
  unfold split_into_sentences
  rw [joinAll_filter_nonempty, filter_nonspace_recombine,
    filter_nonspace_reSplitSent s.length s (le_refl _)]

theorem extract_complete_sentences_join (s : List Char) :
    joinAll (extract_complete_sentences s).1 ++ (extract_complete_sentences s).2
      = joinAll (split_into_sentences s) := by
  unfold extract_complete_sentences
  cases hl : (split_into_sentences s).getLast? with
  | none =>
    simp only [hl]
    simp [joinAll]
  | some last =>
    simp only [hl]
    by_cases he : endsWithPunct last
    · rw [if_neg (by simp [he])]
      simp [joinAll]
    · have he' : endsWithPunct last = false := by simpa using he
      rw [if_pos (by simp [he'])]
      have hdg : (split_into_sentences s).dropLast ++ [last] = split_into_sentences s :=
        List.dropLast_append_getLast? last hl
      conv_rhs => rw [← hdg]
      rw [joinAll_append]
      simp [joinAll]

theorem filter_nonspace_extract (s : List Char) :
    ((joinAll (extract_complete_sentences s).1) ++ (extract_complete_sentences s).2).filter nonspace
      = s.filter nonspace := by
  rw [extract_complete_sentences_join, filter_nonspace_split_into_sentences]

theorem filter_nonspace_pipeline_aux (deltas : List (List Char)) :
    ∀ em buf,
      ((joinAll (deltas.foldl pipelineStep (em, buf)).1) ++
        (deltas.foldl pipelineStep (em, buf)).2).filter nonspace
      = (joinAll em ++ (buf ++ joinAll deltas)).filter nonspace := by
  induction deltas with
  | nil =>
    intro em buf
    simp [joinAll]
  | cons d ds ih =>
    intro em buf
    simp only [List.foldl_cons, pipelineStep]
    rw [ih]
    rw [joinAll_append]
    have hx := filter_nonspace_extract (buf ++ d)
    simp only [List.filter_append] at hx
    have hx2 : ∀ X : List Char,
        ((joinAll (extract_complete_sentences (buf ++ d)).1).filter nonspace ++
          (((extract_complete_sentences (buf ++ d)).2).filter nonspace ++ X))
        = buf.filter nonspace ++ (d.filter nonspace ++ X) := by
      intro X
      rw [← List.append_assoc, ← List.append_assoc, hx]
    simp only [joinAll, List.filter_append, List.append_assoc]
    rw [hx2]

/-- C1 (counterexample): the claim fails as stated.  Feeding the single
TextDelta `"a. b"` through the streaming sentence-extraction pipeline
emits the SentenceUnit `"a."` and leaves residual `"b"`: the whitespace
after the sentence-terminal punctuation is consumed by the
`re.split(r'([.!?]+)\s*', ...)` pattern and by `str.strip()`, so the
concatenation of emitted units plus residual is `"a.b"`, not `"a. b"`. -/
theorem C1_counterexample :
    ¬ (joinAll (runPipeline [['a', '.', ' ', 'b']]).1 ++ (runPipeline [['a', '.', ' ', 'b']]).2
        = joinAll [['a', '.', ' ', 'b']]) := by decide

/-- C1 (amended): for every finite sequence of TextDeltas fed through the
streaming sentence-extraction pipeline, the concatenation of all emitted
SentenceUnits followed by the final residual buffer equals the
concatenation of all TextDeltas up to whitespace: the subsequence of
non-whitespace characters is reproduced exactly (none dropped, none
duplicated, order preserved); only whitespace adjacent to sentence
boundaries may be dropped. -/
theorem C1_reconstruction_up_to_whitespace (deltas : List (List Char)) :
    ((joinAll (runPipeline deltas).1) ++ (runPipeline deltas).2).filter nonspace
      = (joinAll deltas).filter nonspace := by
  have h := filter_nonspace_pipeline_aux deltas [] []
  simpa [runPipeline, joinAll] using h

/-- C8 (counterexample): the claim fails as stated.  If the generation
stream fails after already having delivered the chunk `"Да."`, the
accumulated reply for the turn is `"Да."` followed by the apologetic
fallback sentence — not the single fallback sentence alone. -/
theorem C8_counterexample :
    ¬ (turnRawResponse (generate_response_stream [String.toList "Да."] .failure)
        = llmFallbackError) := by decide

/-- C8 (amended): when the generation call fails mid-stream, the
generator catches the exception and yields the apologetic fallback
sentence as one final chunk, so the turn's accumulated reply equals the
text already streamed followed by the fallback sentence (the reply is the
fallback alone exactly when no non-empty chunk preceded the failure), and
the stream ends normally with the fallback as its last element — the turn
completes instead of aborting the session. -/
theorem C8_fallback_appended (chunks : List (List Char)) :
    turnRawResponse (generate_response_stream chunks .failure)
      = joinAll (chunks.filter (fun c => ! c.isEmpty)) ++ llmFallbackError
    ∧ (generate_response_stream chunks .failure).getLast? = some llmFallbackError := by
  constructor
  · unfold turnRawResponse generate_response_stream
    rw [joinAll_append]
    simp [joinAll]
  · unfold generate_response_stream
    simp [List.getLast?_concat]

/-! ## Lemmas: monotone growth of `" ".join(texts).strip()` (C5) -/

theorem dropWhile_append_of_ne_nil {p : Char → Bool} {a : List Char} (b : List Char)
    (h : a.dropWhile p ≠ []) : (a ++ b).dropWhile p = a.dropWhile p ++ b := by
  induction a with
  | nil => simp [List.dropWhile] at h
  | cons c a ih =>
    by_cases hc : p c
    · rw [List.cons_append, List.dropWhile_cons, if_pos hc]
      rw [List.dropWhile_cons, if_pos hc] at h ⊢
      exact ih h
    · rw [List.cons_append, List.dropWhile_cons, if_neg hc, List.dropWhile_cons, if_neg hc,
        List.cons_append]

theorem dropWhile_append_of_nil {p : Char → Bool} {a : List Char} (b : List Char)
    (h : a.dropWhile p = []) : (a ++ b).dropWhile p = b.dropWhile p := by
  induction a with
  | nil => rfl
  | cons c a ih =>
    by_cases hc : p c
    · rw [List.dropWhile_cons, if_pos hc] at h
      rw [List.cons_append, List.dropWhile_cons, if_pos hc]
      exact ih h
    · rw [List.dropWhile_cons, if_neg hc] at h
      exact absurd h (by simp)

theorem stripRight_isPre (l : List Char) : stripRight l <+: l := by
  obtain ⟨t, ht⟩ := List.dropWhile_suffix (l := l.reverse) pyIsSpace
  exact ⟨t.reverse, by
    unfold stripRight
    rw [← List.reverse_append, ht, List.reverse_reverse]⟩

theorem stripRight_mono (w v : List Char) : stripRight w <+: stripRight (w ++ v) := by
  unfold stripRight
  rw [List.reverse_append]
  by_cases h : v.reverse.dropWhile pyIsSpace = []
  · rw [dropWhile_append_of_nil _ h]
  · rw [dropWhile_append_of_ne_nil _ h, List.reverse_append, List.reverse_reverse]
    exact (stripRight_isPre w).trans ⟨_, rfl⟩

theorem pyStrip_mono (u v : List Char) : pyStrip u <+: pyStrip (u ++ v) := by
  unfold pyStrip stripLeft
  by_cases h : u.dropWhile pyIsSpace = []
  · rw [h]
    unfold stripRight
    simp
  · rw [dropWhile_append_of_ne_nil _ h]
    exact stripRight_mono _ _

theorem joinSpace_append (l m : List (List Char)) (hl : l ≠ []) (hm : m ≠ []) :
    joinSpace (l ++ m) = joinSpace l ++ ' ' :: joinSpace m := by
  induction l with
  | nil => exact absurd rfl hl
  | cons x xs ih =>
    cases xs with
    | nil =>
      cases m with
      | nil => exact absurd rfl hm
      | cons y ys => simp [joinSpace]
    | cons x2 xs2 =>
      have h2 := ih (by simp)
      show x ++ ' ' :: joinSpace ((x2 :: xs2) ++ m)
          = (x ++ ' ' :: joinSpace (x2 :: xs2)) ++ ' ' :: joinSpace m
      rw [h2]
      simp

theorem joinSpace_strip_mono (l m : List (List Char)) :
    pyStrip (joinSpace l) <+: pyStrip (joinSpace (l ++ m)) := by
  cases l with
  | nil => simp [joinSpace, pyStrip, stripLeft, stripRight, List.dropWhile]
  | cons x xs =>
    cases m with
    | nil => simp
    | cons y ys =>
      rw [joinSpace_append (x :: xs) (y :: ys) (by simp) (by simp)]
      exact pyStrip_mono _ _

/-! ## Lemmas about the STT session functions -/

theorem sttDrain_spec {σ : Type} (p : TonePipe σ) (fuel : Nat) (st : SttState σ) :
    (∃ d, (sttDrain p fuel st).1.all_phrases = st.all_phrases ++ d)
    ∧ (sttDrain p fuel st).1.finalized = st.finalized
    ∧ (sttDrain p fuel st).1.cached_text = st.cached_text := by
  induction fuel generalizing st with
  | zero => exact ⟨⟨[], by simp [sttDrain]⟩, rfl, rfl⟩
  | succ fuel ih =>
    unfold sttDrain
    by_cases hc : p.CHUNK_SIZE ≤ st.audio_buffer.length
    · rw [if_pos hc]
      dsimp only
      obtain ⟨⟨d, hd⟩, hf, hct⟩ := ih
        { st with audio_buffer := st.audio_buffer.drop p.CHUNK_SIZE,
                  pipeline_state :=
                    some (p.forward (st.audio_buffer.take p.CHUNK_SIZE) st.pipeline_state).2,
                  all_phrases := st.all_phrases ++
                    (p.forward (st.audio_buffer.take p.CHUNK_SIZE) st.pipeline_state).1 }
      refine ⟨⟨(p.forward (st.audio_buffer.take p.CHUNK_SIZE) st.pipeline_state).1 ++ d, ?_⟩,
        hf, hct⟩
      rw [hd]
      simp [List.append_assoc]
    · rw [if_neg hc]
      exact ⟨⟨[], by simp⟩, rfl, rfl⟩

theorem sttDrain_calls {σ : Type} (p : TonePipe σ) (fuel : Nat) (st : SttState σ)
    (c : List Int) (hm : RecCall.fwd c ∈ (sttDrain p fuel st).2) :
    c.length = p.CHUNK_SIZE := by
  induction fuel generalizing st with
  | zero => simp [sttDrain] at hm
  | succ fuel ih =>
    unfold sttDrain at hm
    by_cases hc : p.CHUNK_SIZE ≤ st.audio_buffer.length
    · rw [if_pos hc] at hm
      dsimp only at hm
      rcases List.mem_cons.mp hm with h | h
      · have hceq : c = st.audio_buffer.take p.CHUNK_SIZE := by
          simpa [RecCall.fwd.injEq] using h
        rw [hceq, List.length_take]
        omega
      · exact ih _ h
    · rw [if_neg hc] at hm
      simp at hm

theorem sttFinalizePad_spec {σ : Type} (p : TonePipe σ) (st : SttState σ) :
    (∃ d, (sttFinalizePad p st).1.all_phrases = st.all_phrases ++ d)
    ∧ (sttFinalizePad p st).1.cached_text = st.cached_text
    ∧ (sttFinalizePad p st).1.finalized = st.finalized := by
  unfold sttFinalizePad
  by_cases h0 : 0 < st.audio_buffer.length
  · rw [if_pos h0]
    dsimp only
    by_cases hlt : st.audio_buffer.length < p.CHUNK_SIZE
    · simp only [hlt, if_true]
      by_cases hc : p.CHUNK_SIZE ≤
          (st.audio_buffer ++ List.replicate (p.CHUNK_SIZE - st.audio_buffer.length) 0).length
      · simp only [hc, if_true]
        exact ⟨⟨_, rfl⟩, by simp, by simp⟩
      · simp only [hc, if_false]
        exact ⟨⟨[], by simp⟩, by simp, by simp⟩
    · simp only [hlt, if_false]
      by_cases hc : p.CHUNK_SIZE ≤ st.audio_buffer.length
      · simp only [hc, if_true]
        exact ⟨⟨_, rfl⟩, by simp, by simp⟩
      · simp only [hc, if_false]
        exact ⟨⟨[], by simp⟩, by simp, by simp⟩
  · rw [if_neg h0]
    exact ⟨⟨[], by simp⟩, by simp, by simp⟩

theorem sttFinalizePad_calls {σ : Type} (p : TonePipe σ) (st : SttState σ)
    (c : List Int) (hm : RecCall.fwd c ∈ (sttFinalizePad p st).2) :
    c.length = p.CHUNK_SIZE := by
  unfold sttFinalizePad at hm
  by_cases h0 : 0 < st.audio_buffer.length
  · rw [if_pos h0] at hm
    dsimp only at hm
    by_cases hlt : st.audio_buffer.length < p.CHUNK_SIZE
    · simp only [hlt, if_true] at hm
      have hlen : (st.audio_buffer ++
          List.replicate (p.CHUNK_SIZE - st.audio_buffer.length) 0).length = p.CHUNK_SIZE := by
        simp
        omega
      by_cases hc : p.CHUNK_SIZE ≤ (st.audio_buffer ++
          List.replicate (p.CHUNK_SIZE - st.audio_buffer.length) 0).length
      · simp only [hc, if_true] at hm
        have hceq : c = (st.audio_buffer ++
            List.replicate (p.CHUNK_SIZE - st.audio_buffer.length) 0).take p.CHUNK_SIZE := by
          simpa [RecCall.fwd.injEq] using hm
        rw [hceq, List.length_take, hlen]
        omega
      · simp only [hc, if_false] at hm
        simp at hm
    · simp only [hlt, if_false] at hm
      by_cases hc : p.CHUNK_SIZE ≤ st.audio_buffer.length
      · simp only [hc, if_true] at hm
        have hceq : c = st.audio_buffer.take p.CHUNK_SIZE := by
          simpa [RecCall.fwd.injEq] using hm
        rw [hceq, List.length_take]
        omega
      · simp only [hc, if_false] at hm
        simp at hm
  · rw [if_neg h0] at hm
    simp at hm

theorem finalize_post {σ : Type} (p : TonePipe σ) (st : SttState σ) :
    (STT_finalize_stream p st).2.1.finalized = true
    ∧ (STT_finalize_stream p st).1 = (STT_finalize_stream p st).2.1.cached_text := by
  unfold STT_finalize_stream
  by_cases hf : st.finalized
  · rw [if_pos hf]
    exact ⟨hf, rfl⟩
  · rw [if_neg hf]
    dsimp only
    cases hps : (sttFinalizePad p st).1.pipeline_state with
    | some s =>
      simp only [hps]
      exact ⟨by simp, by simp⟩
    | none =>
      simp only [hps]
      refine ⟨by simp, ?_⟩
      by_cases he : (sttFinalizePad p st).1.cached_text.isEmpty
      · have h0 : (sttFinalizePad p st).1.cached_text = [] := by
          simpa [List.isEmpty_iff] using he
        rw [if_pos he]
        exact h0.symm
      · rw [if_neg he]

/-- C5: within a (non-finalized) streaming transcription session whose
cached partial text is consistent with its accumulated phrase list, each
`process_chunk` call returns a partial transcription that extends the
previous one as a prefix (fragments are only appended, never reordered or
rewritten), the new state keeps that consistency with `finalized` still
false (so successive calls chain), and the text returned by
`finalize_stream` extends the last partial the same way. -/
theorem C5_transcript_monotone {σ : Type} (p : TonePipe σ) (st : SttState σ)
    (samples : List Int) (hfin : st.finalized = false)
    (hcache : st.cached_text = pyStrip (joinSpace st.all_phrases)) :
    st.cached_text <+: (STT_process_chunk p st samples).1
    ∧ (STT_process_chunk p st samples).2.1.cached_text = (STT_process_chunk p st samples).1
    ∧ (STT_process_chunk p st samples).2.1.finalized = false
    ∧ (STT_process_chunk p st samples).2.1.cached_text
        = pyStrip (joinSpace (STT_process_chunk p st samples).2.1.all_phrases)
    ∧ st.cached_text <+: (STT_finalize_stream p st).1 := by
  have hif : (if st.finalized then sttInitial else st) = st := by simp [hfin]
  obtain ⟨⟨d, hd⟩, hf, hct⟩ := sttDrain_spec p
      (st.audio_buffer ++ samples).length
      ({ st with audio_buffer := st.audio_buffer ++ samples } : SttState σ)
  dsimp only at hd hf hct
  simp only [STT_process_chunk, hif]
  refine ⟨?_, trivial, ?_, trivial, ?_⟩
  · rw [hd, hcache]
    exact joinSpace_strip_mono _ _
  · rw [hf, hfin]
  · unfold STT_finalize_stream
    rw [if_neg (by simp [hfin])]
    dsimp only
    obtain ⟨⟨d2, hd2⟩, hct2, _⟩ := sttFinalizePad_spec p st
    cases hps : (sttFinalizePad p st).1.pipeline_state with
    | some s =>
      simp only [hps]
      rw [hcache, hd2, List.append_assoc]
      exact joinSpace_strip_mono _ _
    | none =>
      simp only [hps]
      rw [hct2]
      by_cases he : st.cached_text.isEmpty
      · have h0 : st.cached_text = [] := by simpa [List.isEmpty_iff] using he
        rw [if_pos he, h0]
      · rw [if_neg he]

/-- C5 witness: the monotone-extension theorem applied to a concrete
pipeline, the fresh session state and a concrete three-sample chunk. -/
theorem C5_transcript_monotone_witness :
    (sttInitial : SttState Nat).cached_text
        <+: (STT_process_chunk pipeDemo sttInitial [1, 2, 3]).1
    ∧ (STT_process_chunk pipeDemo sttInitial [1, 2, 3]).2.1.cached_text
        = (STT_process_chunk pipeDemo sttInitial [1, 2, 3]).1
    ∧ (STT_process_chunk pipeDemo sttInitial [1, 2, 3]).2.1.finalized = false
    ∧ (STT_process_chunk pipeDemo sttInitial [1, 2, 3]).2.1.cached_text
        = pyStrip (joinSpace (STT_process_chunk pipeDemo sttInitial [1, 2, 3]).2.1.all_phrases)
    ∧ (sttInitial : SttState Nat).cached_text
        <+: (STT_finalize_stream pipeDemo sttInitial).1 :=
  C5_transcript_monotone pipeDemo sttInitial [1, 2, 3] rfl rfl

/-- C6: every recognizer `forward` call made by `process_chunk` or by
`finalize_stream` receives a frame of exactly `CHUNK_SIZE` samples:
`process_chunk` slices exact-size chunks and buffers any shorter
residual, and `finalize_stream` zero-pads the residual up to `CHUNK_SIZE`
before its final `forward` call. -/
theorem C6_exact_frame_size {σ : Type} (p : TonePipe σ) (st : SttState σ)
    (samples : List Int) (c : List Int) :
    (RecCall.fwd c ∈ (STT_process_chunk p st samples).2.2 → c.length = p.CHUNK_SIZE)
    ∧ (RecCall.fwd c ∈ (STT_finalize_stream p st).2.2 → c.length = p.CHUNK_SIZE) := by
  constructor
  · intro hm
    simp only [STT_process_chunk] at hm
    exact sttDrain_calls p _ _ c hm
  · intro hm
    unfold STT_finalize_stream at hm
    by_cases hf : st.finalized
    · rw [if_pos hf] at hm
      simp at hm
    · rw [if_neg hf] at hm
      dsimp only at hm
      cases hps : (sttFinalizePad p st).1.pipeline_state with
      | some s =>
        simp only [hps] at hm
        rcases List.mem_append.mp hm with h | h
        · exact sttFinalizePad_calls p st c h
        · simp at h
      | none =>
        simp only [hps] at hm
        exact sttFinalizePad_calls p st c hm

/-- C6 witness: with `CHUNK_SIZE = 2`, pushing three samples makes one
interior `forward` call on `[1, 2]`, and finalizing makes the padded call
on `[3, 0]`; both frames have exactly `CHUNK_SIZE` samples. -/
theorem C6_exact_frame_size_witness :
    ([1, 2] : List Int).length = pipeDemo.CHUNK_SIZE
    ∧ ([3, 0] : List Int).length = pipeDemo.CHUNK_SIZE :=
  ⟨(C6_exact_frame_size pipeDemo sttInitial [1, 2, 3] [1, 2]).1 (by decide),
   (C6_exact_frame_size pipeDemo
      (STT_process_chunk pipeDemo sttInitial [1, 2, 3]).2.1 [] [3, 0]).2 (by decide)⟩

/-- C9: calling `finalize_stream` twice on the same session without an
intervening reset does not duplicate fragments: the second call performs
no recognizer invocation at all and returns exactly the text the first
call returned. -/
theorem C9_finalize_idempotent {σ : Type} (p : TonePipe σ) (st : SttState σ) :
    (STT_finalize_stream p (STT_finalize_stream p st).2.1).1 = (STT_finalize_stream p st).1
    ∧ (STT_finalize_stream p (STT_finalize_stream p st).2.1).2.2 = ([] : List RecCall) := by
  obtain ⟨h1, h2⟩ := finalize_post p st
  have key : ∀ Y : SttState σ, Y.finalized = true →
      STT_finalize_stream p Y = (Y.cached_text, Y, []) := by
    intro Y hY
    unfold STT_finalize_stream
    rw [if_pos hY]
  rw [key _ h1]
  exact ⟨h2.symm, rfl⟩

/-- C10: finalizing a freshly started streaming session into which no
audio was ever buffered never invokes the recognizer (neither `forward`
nor `finalize`), marks the session finalized, and returns the empty
string. -/
theorem C10_finalize_fresh_session {σ : Type} (p : TonePipe σ) :
    STT_finalize_stream p (sttInitial : SttState σ)
      = ([], { (sttInitial : SttState σ) with finalized := true }, []) := rfl

/-! ## Lemmas about the end-of-speech detector -/

theorem processFrame_next_state (cfg : VADConfig) (st : VADState) (chunk : List Int)
    (st2 : VADState) (h : processFrame cfg st chunk = (.next, st2)) :
    st2.audio_buffer = st.audio_buffer := by
  unfold processFrame at h
  cases hc : cfg.classify chunk with
  | err =>
    rw [hc] at h
    injection h with h1 h2
    rw [← h2]
  | speech =>
    rw [hc] at h
    injection h with h1 h2
    rw [← h2]
  | nonspeech =>
    rw [hc] at h
    dsimp only at h
    by_cases hs : st.speech_started = true
    · rw [if_pos hs] at h
      by_cases hth : cfg.silence_threshold_samples ≤ st.silence_samples + cfg.frame_size_samples
      · rw [if_pos hth] at h
        by_cases hm : cfg.min_speech_samples ≤ (st.speech_buffer.map List.length).sum
        · rw [if_pos hm] at h
          simp at h
        · rw [if_neg hm] at h
          simp at h
      · rw [if_neg hth] at h
        injection h with h1 h2
        rw [← h2]
    · rw [if_neg hs] at h
      injection h with h1 h2
      rw [← h2]

theorem vadProcessBuffer_no_reset (cfg : VADConfig) (fuel : Nat) (st : VADState)
    (h : (vadProcessBuffer cfg fuel st).2.2.2 = false) :
    joinAll (vadProcessBuffer cfg fuel st).2.2.1
      ++ (vadProcessBuffer cfg fuel st).2.1.audio_buffer = st.audio_buffer := by
  induction fuel generalizing st with
  | zero => simp [vadProcessBuffer, joinAll]
  | succ fuel ih =>
    unfold vadProcessBuffer at h ⊢
    by_cases hc : cfg.frame_size_samples ≤ st.audio_buffer.length
    · rw [if_pos hc] at h ⊢
      dsimp only at h ⊢
      cases hout : (processFrame cfg
          { st with audio_buffer := st.audio_buffer.drop cfg.frame_size_samples }
          (st.audio_buffer.take cfg.frame_size_samples)).1 with
      | emitSeg seg => simp [hout] at h
      | discard => simp [hout] at h
      | next =>
        simp only [hout] at h
        dsimp only at h ⊢
        have hnext : processFrame cfg
            { st with audio_buffer := st.audio_buffer.drop cfg.frame_size_samples }
            (st.audio_buffer.take cfg.frame_size_samples)
            = (.next, (processFrame cfg
                { st with audio_buffer := st.audio_buffer.drop cfg.frame_size_samples }
                (st.audio_buffer.take cfg.frame_size_samples)).2) := by
          rw [← hout]
        have haud := processFrame_next_state cfg _ _ _ hnext
        have hrec := ih (processFrame cfg
            { st with audio_buffer := st.audio_buffer.drop cfg.frame_size_samples }
            (st.audio_buffer.take cfg.frame_size_samples)).2 h
        rw [joinAll, List.append_assoc, hrec, haud]
        exact List.take_append_drop _ _
    · rw [if_neg hc] at h ⊢
      simp [joinAll]

theorem VAD_process_chunk_no_reset (cfg : VADConfig) (st : VADState) (samples : List Int)
    (h : (VAD_process_chunk cfg st samples).2.2.2 = false) :
    joinAll (VAD_process_chunk cfg st samples).2.2.1
      ++ (VAD_process_chunk cfg st samples).2.1.audio_buffer
      = st.audio_buffer ++ samples := by
  unfold VAD_process_chunk at h ⊢
  dsimp only at h ⊢
  by_cases hlt : (st.audio_buffer ++ samples).length < cfg.frame_size_samples
  · rw [if_pos hlt] at h ⊢
    simp [joinAll]
  · rw [if_neg hlt] at h ⊢
    exact vadProcessBuffer_no_reset cfg _ _ h

theorem VAD_feed_no_reset (cfg : VADConfig) (chunks : List (List Int)) :
    ∀ st : VADState, (VAD_feed cfg st chunks).2.2 = false →
      joinAll (VAD_feed cfg st chunks).2.1 ++ (VAD_feed cfg st chunks).1.audio_buffer
        = st.audio_buffer ++ joinAll chunks := by
  induction chunks with
  | nil =>
    intro st h
    simp [VAD_feed, joinAll]
  | cons c cs ih =>
    intro st h
    unfold VAD_feed at h ⊢
    dsimp only at h ⊢
    obtain ⟨h1, h2⟩ := Bool.or_eq_false_iff.mp h
    have e1 := VAD_process_chunk_no_reset cfg st c h1
    have e2 := ih (VAD_process_chunk cfg st c).2.1 h2
    rw [joinAll_append, List.append_assoc, e2, ← List.append_assoc, e1]
    simp [joinAll, List.append_assoc]

/-! ## Detector claim theorems -/

/-- C2: at the frame where, with speech started, a non-speech frame
pushes the accumulated trailing-silence counter to
`silence_threshold_samples`, the detector emits the buffered segment
exactly when the accumulated speech sample count reaches
`min_speech_samples`, and discards it (emitting nothing) otherwise; in
both cases the state returns to Idle (speech not started, counters zero,
buffers empty). -/
theorem C2_emit_iff_min_speech (cfg : VADConfig) (st : VADState) (chunk : List Int)
    (hstart : st.speech_started = true)
    (hcl : cfg.classify chunk = .nonspeech)
    (hsil : cfg.silence_threshold_samples ≤ st.silence_samples + cfg.frame_size_samples) :
    (processFrame cfg st chunk).2 = vadInitial
    ∧ (cfg.min_speech_samples ≤ (st.speech_buffer.map List.length).sum →
        (processFrame cfg st chunk).1 = .emitSeg st.speech_buffer)
    ∧ ((st.speech_buffer.map List.length).sum < cfg.min_speech_samples →
        (processFrame cfg st chunk).1 = .discard) := by
  unfold processFrame
  rw [hcl]
  dsimp only
  rw [if_pos hstart, if_pos hsil]
  by_cases hm : cfg.min_speech_samples ≤ (st.speech_buffer.map List.length).sum
  · rw [if_pos hm]
    exact ⟨rfl, fun _ => rfl, fun hlt => absurd hm (by omega)⟩
  · rw [if_neg hm]
    exact ⟨rfl, fun hge => absurd hge hm, fun _ => rfl⟩

/-- C2 witness: a concrete emission — with two-sample frames and both
thresholds at two samples, a mid-utterance state holding one speech frame
meets `min_speech_samples`, so the silent frame `[0, 0]` triggers
emission of the buffered segment and a reset to Idle. -/
theorem C2_emit_iff_min_speech_witness :
    (processFrame vadEmitConfig vadMidState [0, 0]).1 = .emitSeg [[5, 5]]
    ∧ (processFrame vadEmitConfig vadMidState [0, 0]).2 = vadInitial :=
  ⟨(C2_emit_iff_min_speech vadEmitConfig vadMidState [0, 0] rfl rfl
      (by decide)).2.1 (by decide),
   (C2_emit_iff_min_speech vadEmitConfig vadMidState [0, 0] rfl rfl (by decide)).1⟩

/-- C3 (counterexample): the claim fails as stated.  With one-sample
frames and thresholds of one sample, pushing `[1, 0, 5]` classifies `[1]`
as speech and `[0]` as silence, which ends the utterance: the detector
emits the segment and `_reset()` clears `_audio_buffer`, so sample `5` is
neither handed downstream nor kept as residual — the round-trip equation
fails at the moment a segment is emitted. -/
theorem C3_counterexample :
    ¬ (joinAll (VAD_process_chunk vadCexConfig vadInitial [1, 0, 5]).2.2.1
        ++ (VAD_process_chunk vadCexConfig vadInitial [1, 0, 5]).2.1.audio_buffer
        = vadInitial.audio_buffer ++ [1, 0, 5]) := by decide

/-- C3 (amended): as long as the detector never resets (no segment is
emitted and no buffer is discarded), the concatenation of every frame
handed to the classifier plus the residual still buffered reproduces the
pushed sample stream exactly — no sample lost or duplicated.  When a
segment is emitted or discarded, `_reset()` drops the remaining buffered
samples, so the equation only holds up to that point. -/
theorem C3_no_reset_round_trip (cfg : VADConfig) (chunks : List (List Int))
    (h : (VAD_feed cfg vadInitial chunks).2.2 = false) :
    joinAll (VAD_feed cfg vadInitial chunks).2.1
      ++ (VAD_feed cfg vadInitial chunks).1.audio_buffer = joinAll chunks := by
  have hfeed := VAD_feed_no_reset cfg chunks vadInitial h
  simpa [vadInitial] using hfeed

/-- C3 witness: with an all-non-speech classifier the detector never
resets, and pushing `[1, 2]` then `[3]` yields one processed frame
`[1, 2]` plus residual `[3]`, reassembling the input exactly. -/
theorem C3_no_reset_round_trip_witness :
    (VAD_feed vadQuietConfig vadInitial [[1, 2], [3]]).2.2 = false
    ∧ joinAll (VAD_feed vadQuietConfig vadInitial [[1, 2], [3]]).2.1
        ++ (VAD_feed vadQuietConfig vadInitial [[1, 2], [3]]).1.audio_buffer
        = joinAll [[1, 2], [3]] :=
  ⟨by decide, C3_no_reset_round_trip vadQuietConfig [[1, 2], [3]] (by decide)⟩

/-- C4 (counterexample): the claim fails as stated.  In the Accumulating
state a below-threshold (non-speech) frame is *not* appended to the
accumulated speech buffer: with speech started and buffer `[[1]]`,
processing the silent frame `[0]` leaves the buffer at `[[1]]`, not
`[[1], [0]]` — only the silence counter changes. -/
theorem C4_counterexample :
    ¬ ((processFrame vadSilentConfig vadStartedState [0]).2.speech_buffer
        = vadStartedState.speech_buffer ++ [[0]]) := by decide

/-- C4 (amended): when the detector processes a frame whose speech
probability is below the threshold while speech has already started (and
the incremented silence counter stays below the end-of-speech threshold),
the frame is NOT appended to the speech buffer — only speech-classified
frames are buffered — and the silence-sample counter is incremented by
the configured frame sample count; everything else is unchanged and
processing continues. -/
theorem C4_silence_not_buffered (cfg : VADConfig) (st : VADState) (chunk : List Int)
    (hstart : st.speech_started = true)
    (hcl : cfg.classify chunk = .nonspeech)
    (hlt : st.silence_samples + cfg.frame_size_samples < cfg.silence_threshold_samples) :
    processFrame cfg st chunk
      = (.next, { st with silence_samples := st.silence_samples + cfg.frame_size_samples }) := by
  unfold processFrame
  rw [hcl]
  dsimp only
  rw [if_pos hstart, if_neg (by omega)]

/-- C4 witness: the amended statement at a concrete mid-utterance state —
the silent frame is not buffered and the silence counter grows by the
frame size. -/
theorem C4_silence_not_buffered_witness :
    processFrame vadSilentConfig vadStartedState [0]
      = (.next, { vadStartedState with silence_samples :=
          vadStartedState.silence_samples + vadSilentConfig.frame_size_samples }) :=
  C4_silence_not_buffered vadSilentConfig vadStartedState [0] rfl rfl (by decide)

/-- C7 (counterexample): the claim fails as stated.  A classifier error
is not handled like a below-threshold frame: with speech started, an
erroring frame leaves the silence counter unchanged instead of
incrementing it by the frame's sample count. -/
theorem C7_counterexample :
    ¬ ((processFrame vadErrConfig vadStartedState [0]).2.silence_samples
        = vadStartedState.silence_samples + vadErrConfig.frame_size_samples) := by decide

/-- C7 (amended): when the voice-activity classifier raises on a frame,
the exception is caught (the detector does not raise), the error is
logged, and that frame is skipped entirely — the detector state is left
completely unchanged (nothing buffered, no silence counted) — and the
processing loop continues with the next frame. -/
theorem C7_error_frame_skipped (cfg : VADConfig) (st : VADState) (chunk : List Int)
    (hcl : cfg.classify chunk = .err) :
    processFrame cfg st chunk = (.next, st) := by
  unfold processFrame
  rw [hcl]

/-- C7 witness: the always-erroring classifier at a concrete
mid-utterance state — the frame is skipped with the state unchanged. -/
theorem C7_error_frame_skipped_witness :
    processFrame vadErrConfig vadStartedState [0] = (.next, vadStartedState) :=
  C7_error_frame_skipped vadErrConfig vadStartedState [0] rfl
